import Mathlib

/-!
Verification of the market-making engine of the `trading_game` repository.

The engine (`MarketMakingEngine` in the TypeScript source) is embedded
shallowly over the real numbers: JavaScript floating-point arithmetic is
idealised as exact real arithmetic, `Math.exp/log/sqrt/cos/PI` become
`Real.exp/log/sqrt/cos/pi`, and thrown exceptions become `Except.error`.
The engine's internal RNG (`this.rng`) is modelled as a draw stream
`ds : ℕ → ℝ` together with a stream position `k` carried in the engine;
a seeded engine uses the stream generated by `mulberry32` (embedded
exactly over naturals modulo 2^32), while an unseeded engine (driven by
`Math.random`) corresponds to an arbitrary stream with values in [0, 1).
`Date.now()` is modelled as an explicit call-time argument `now`.
-/

namespace TradingGame

/-- Spread mode of the session settings (source: `SpreadType`). -/
inductive SpreadType where
  | predefined
  | percent
  deriving DecidableEq

/-- Scenario record (source: `Scenario` in the scenarios module).
Only `trueValue` is read by the engine; the other fields are carried
for faithfulness of the `Fill` records. -/
structure Scenario where
  id : String
  prompt : String
  unit : String
  trueValue : ℝ
  minB : Option ℝ
  maxB : Option ℝ
  hint : Option String
  tags : Option (List String)

/-- Session settings (source: `Settings`). `seed` is the optional RNG
seed; when present the engine draws from the mulberry32 stream. -/
structure Settings where
  durationSec : ℝ
  spreadType : SpreadType
  predefinedSpread : ℝ
  percentSpread : ℝ
  inventoryLimit : ℝ
  riskAversion : ℝ
  invSkew : ℝ
  spreadWiden : ℝ
  seed : Option ℕ

/-- Quote record (source: `Quote`). -/
structure Quote where
  bid : ℝ
  ask : ℝ

/-- Fill side, from the maker's perspective (source: `'BUY' | 'SELL'`). -/
inductive Side where
  | BUY
  | SELL
  deriving DecidableEq

/-- Fill record (source: `Fill`). `ts` is the `Date.now()` timestamp. -/
structure Fill where
  side : Side
  price : ℝ
  qty : ℝ
  scenario : Scenario
  fair : ℝ
  ts : ℝ

/-- Engine state (source: `State`). -/
structure State where
  cash : ℝ
  inv : ℝ
  realized : ℝ
  lastMark : Option ℝ
  fills : List Fill

/-- Source: `function clamp(x, lo, hi) { return Math.min(hi, Math.max(lo, x)); }`. -/
noncomputable def clamp (x lo hi : ℝ) : ℝ := min hi (max lo x)

/-- One step of the mulberry32 generator (source: the closure body of
`mulberry32`).  The 32-bit signed/unsigned JavaScript integer pattern is
represented as a natural number below 2^32; `Math.imul` is multiplication
modulo 2^32, `x >>> n` is division by 2^n on the pattern, and the final
`>>> 0` is the identity on the pattern.  Returns the new generator state
`a` and the output pattern (the output value is the pattern / 2^32). -/
def m32next (a0 : ℕ) : ℕ × ℕ :=
  let a := (a0 + 0x6d2b79f5) % 4294967296
  let t := ((a ^^^ (a >>> 15)) * (1 ||| a)) % 4294967296
  let t2 := (((t + ((t ^^^ (t >>> 7)) * (61 ||| t)) % 4294967296) % 4294967296) ^^^ t)
  (a, t2 ^^^ (t2 >>> 14))

/-- Generator state before the n-th draw; the seed is taken `>>> 0`
(i.e. modulo 2^32) as in the source. -/
def m32state (seed : ℕ) : ℕ → ℕ
  | 0 => seed % 4294967296
  | n + 1 => (m32next (m32state seed n)).1

/-- The n-th output of the seeded generator, as a real number in [0, 1)
(source: `((t ^ (t >>> 14)) >>> 0) / 4294967296`). -/
noncomputable def m32stream (seed : ℕ) (n : ℕ) : ℝ :=
  ((m32next (m32state seed n)).2 : ℝ) / 4294967296

/-- The engine: its mutable `state` plus the RNG stream position. -/
structure Engine where
  state : State
  k : ℕ

/-- The fresh engine created by the constructor (source:
`this.state = { cash: 0, inv: 0, realized: 0, lastMark: null, fills: [] }`),
with the RNG at position 0. -/
def engineFresh : Engine :=
  ⟨⟨0, 0, 0, none, []⟩, 0⟩

/-- Source: `quoteSanity`.  The `Number.isFinite` guard of the source has
no counterpart here because every member of `ℝ` is finite; the remaining
two checks are embedded in source order. -/
noncomputable def quoteSanity (q : Quote) : Except String Unit :=
  if q.bid ≤ 0 ∨ q.ask ≤ 0 then Except.error ("Bid/ask must be > 0")
  else if q.ask ≤ q.bid then Except.error ("Bid must be < ask")
  else Except.ok ()

/-- The sampled counterparty fair value (source: `sampleFair`), reading
the two uniform draws at stream positions `k` and `k+1`:
`trueValue * exp(sigma * z)` with `sigma = 0.18` and
`z = sqrt(-2 * log(max(1e-12, u))) * cos(2 * pi * v)`. -/
noncomputable def fairOf (ds : ℕ → ℝ) (sc : Scenario) (k : ℕ) : ℝ :=
  sc.trueValue *
    Real.exp (0.18 * (Real.sqrt (-2 * Real.log (max 1e-12 (ds k))) *
      Real.cos (2 * Real.pi * ds (k + 1))))

/-- Source: `const scale = Math.max(1, 0.06 * scenario.trueValue)`. -/
noncomputable def scaleOf (sc : Scenario) : ℝ :=
  max 1 (0.06 * sc.trueValue)

/-- The logistic edge-to-probability map (source:
`1 / (1 + Math.exp(-edge / scale))`, used for both `pBuy` and `pSell`). -/
noncomputable def pOf (edge scale : ℝ) : ℝ :=
  1 / (1 + Real.exp (-edge / scale))

/-- The inventory-pressure damping factor (source: `invPressure` and
`damp` in `submitQuote`). -/
noncomputable def dampOf (S : Settings) (st : State) : ℝ :=
  clamp (1 - 0.35 * (|st.inv| / max 1 S.inventoryLimit)) 0.35 1

/-- The tail of `submitQuote` once a candidate fill exists (source lines
from `// Enforce hard inventory limit` to `return fill`): reject the fill
if the resulting inventory would breach the limit, otherwise update cash
and inventory atomically, append the fill and set the last mark.  `k2` is
the RNG position after the draws consumed by the branch taken. -/
noncomputable def settleFill (S : Settings) (E : Engine) (f : Fill) (k2 : ℕ) :
    Except String (Option Fill × Engine) :=
  if |E.state.inv + (if f.side = Side.BUY then f.qty else -f.qty)| > S.inventoryLimit then
    Except.ok (none, { E with k := k2 })
  else if f.side = Side.BUY then
    Except.ok (some f,
      ⟨{ E.state with inv := E.state.inv + f.qty,
                      cash := E.state.cash - f.price * f.qty,
                      fills := E.state.fills ++ [f],
                      lastMark := some f.scenario.trueValue }, k2⟩)
  else
    Except.ok (some f,
      ⟨{ E.state with inv := E.state.inv - f.qty,
                      cash := E.state.cash + f.price * f.qty,
                      fills := E.state.fills ++ [f],
                      lastMark := some f.scenario.trueValue }, k2⟩)

/-- Body of `submitQuote` after the sanity check.  Draw positions mirror
the source's sequential `this.rng()` calls: `u` at `k`, `v` at `k+1`
(both inside `sampleFair`), `r` at `k+2`, the random-flow draw at `k+3`
and the flow-side draw at `k+4`. -/
noncomputable def submitQuoteBody (ds : ℕ → ℝ) (S : Settings) (E : Engine)
    (q : Quote) (sc : Scenario) (qty : ℝ) (now : ℝ) :
    Except String (Option Fill × Engine) :=
  let fair := fairOf ds sc E.k
  let pBuy := pOf (fair - q.ask) (scaleOf sc)
  let pSell := pOf (q.bid - fair) (scaleOf sc)
  let damp := dampOf S E.state
  let r := ds (E.k + 2)
  if pBuy * damp > 0.60 ∧ r < pBuy * damp then
    settleFill S E ⟨Side.SELL, q.ask, qty, sc, fair, now⟩ (E.k + 3)
  else if pSell * damp > 0.60 ∧ r < pSell * damp then
    settleFill S E ⟨Side.BUY, q.bid, qty, sc, fair, now⟩ (E.k + 3)
  else
    if ds (E.k + 3) < 0.06 * damp then
      if ds (E.k + 4) < 0.5 then
        settleFill S E ⟨Side.BUY, q.bid, qty, sc, fair, now⟩ (E.k + 5)
      else
        settleFill S E ⟨Side.SELL, q.ask, qty, sc, fair, now⟩ (E.k + 5)
    else Except.ok (none, { E with k := E.k + 4 })

/-- Source: `submitQuote(q, scenario, qty = 1)`, with the call-time
`now` standing for `Date.now()`. -/
noncomputable def submitQuote (ds : ℕ → ℝ) (S : Settings) (E : Engine)
    (q : Quote) (sc : Scenario) (qty : ℝ) (now : ℝ) :
    Except String (Option Fill × Engine) :=
  match quoteSanity q with
  | Except.error e => Except.error e
  | Except.ok _ => submitQuoteBody ds S E q sc qty now

/-- Result view of `pnl` (source: the object literal returned by `pnl`). -/
structure PnlView where
  cash : ℝ
  inv : ℝ
  mtm : ℝ
  riskAdj : ℝ

/-- Source: `pnl(mark)`. -/
noncomputable def pnl (S : Settings) (st : State) (mark : ℝ) : PnlView :=
  let unreal := st.inv * mark
  let raw := st.cash + unreal
  let riskPenalty := S.riskAversion * |st.inv| * 0.01 * mark
  ⟨st.cash, st.inv, raw, raw - riskPenalty⟩

/-- Source: `defaultQuote(estimate)`. -/
noncomputable def defaultQuote (S : Settings) (st : State) (estimate : ℝ) : Quote :=
  let inv := st.inv
  let invLimit := max 1 S.inventoryLimit
  let invNorm := clamp (inv / invLimit) (-1) 1
  let baseHalf :=
    if S.spreadType = SpreadType.percent then max (estimate * S.percentSpread * 0.5) 1e-6
    else max (S.predefinedSpread * 0.5) 1e-6
  let widen := 1 + S.spreadWiden * |invNorm|
  let half := baseHalf * widen
  let midShift := -S.invSkew * invNorm * half
  let mid := estimate + midShift
  ⟨max 1e-6 (mid - half), mid + half⟩

/-- Source: `breakEven()`; `null` becomes `none`. -/
noncomputable def breakEven (st : State) : Option ℝ :=
  if st.inv = 0 then none else some (-st.cash / st.inv)

/-- One external `submitQuote` call: quote, scenario, quantity and the
wall-clock time observed by `Date.now()` during the call. -/
structure Call where
  q : Quote
  sc : Scenario
  qty : ℝ
  now : ℝ

/-- Run a sequence of `submitQuote` calls, stopping at the first thrown
error. -/
noncomputable def runCalls (ds : ℕ → ℝ) (S : Settings) (E : Engine) :
    List Call → Except String Engine
  | [] => Except.ok E
  | c :: cs =>
    match submitQuote ds S E c.q c.sc c.qty c.now with
    | Except.error e => Except.error e
    | Except.ok (_, E2) => runCalls ds S E2 cs

/-- A valid quote in the sense of the spec's sanity contract: positive
finite bid and ask with `bid < ask` (finiteness is implicit in `ℝ`). -/
def ValidQuote (q : Quote) : Prop :=
  0 < q.bid ∧ 0 < q.ask ∧ q.bid < q.ask

/-- A call with a valid quote and positive quantity. -/
def ValidCall (c : Call) : Prop :=
  ValidQuote c.q ∧ 0 < c.qty

/-- A concrete draw stream, constantly 1/2: a possible output sequence of
the unseeded engine's `Math.random`. -/
noncomputable def ds0 : ℕ → ℝ := fun _ => 1 / 2

/-- A concrete scenario with true value 1. -/
def sc1 : Scenario := ⟨"s1", "p", "u", 1, none, none, none, none⟩

/-- Concrete settings: predefined spread 10, inventory limit 1,
inventory-skew coefficient 100, no seed. -/
noncomputable def S1 : Settings := ⟨60, SpreadType.predefined, 10, 0.05, 1, 0, 100, 0, none⟩

/-- Concrete settings with seed 1 (otherwise like `S1` but without skew). -/
noncomputable def S5 : Settings := ⟨60, SpreadType.predefined, 10, 0.05, 1, 0, 0, 0, some 1⟩

/-- Concrete settings: predefined spread 10, inventory limit 10,
moderate skew and widening. -/
noncomputable def S6 : Settings := ⟨60, SpreadType.predefined, 10, 0.05, 10, 0, 0.5, 0.2, none⟩

/-- A concrete quote far above the scenario-1 fair value: the customer
sells into the bid with near certainty. -/
noncomputable def q1 : Quote := ⟨100, 101⟩

/-- A concrete quote far around the scenario-1 fair value: no directional
trade can trigger. -/
noncomputable def q0 : Quote := ⟨1 / 10, 10⟩

/-- The fill produced by submitting `q1` on `sc1` under the stream `ds0`
at time 0. -/
noncomputable def fill1 : Fill := ⟨Side.BUY, 100, 1, sc1, fairOf ds0 sc1 0, 0⟩

/-- The engine after that fill. -/
noncomputable def E1 : Engine := ⟨⟨-100, 1, 0, some 1, [fill1]⟩, 3⟩

/-- The fair value sampled from the mulberry32 stream with seed 1. -/
noncomputable def fairM : ℝ := fairOf (m32stream 1) sc1 0

/-- The fill produced by submitting `q1` on `sc1` under the seed-1 stream
when `Date.now()` reads 0, and the resulting engine. -/
noncomputable def fillA : Fill := ⟨Side.BUY, 100, 1, sc1, fairM, 0⟩

/-- Same trade observed when `Date.now()` reads 1. -/
noncomputable def fillB : Fill := ⟨Side.BUY, 100, 1, sc1, fairM, 1⟩

/-- Engine after `fillA`. -/
noncomputable def EA : Engine := ⟨⟨-100, 1, 0, some 1, [fillA]⟩, 3⟩

/-- Engine after `fillB`. -/
noncomputable def EB : Engine := ⟨⟨-100, 1, 0, some 1, [fillB]⟩, 3⟩

/-- The `q1` call observed at wall-clock time 0. -/
noncomputable def callA : Call := ⟨q1, sc1, 1, 0⟩

/-- The `q1` call observed at wall-clock time 1. -/
noncomputable def callB : Call := ⟨q1, sc1, 1, 1⟩

/-- The `q0` call observed at wall-clock time 0. -/
noncomputable def call0 : Call := ⟨q0, sc1, 1, 0⟩

end TradingGame

namespace TradingGame

/-- The sanity check accepts every valid quote. -/
theorem quoteSanity_ok_of_valid {q : Quote} (h : ValidQuote q) :
    quoteSanity q = Except.ok () := by
  obtain ⟨hb, ha, hba⟩ := h
  unfold quoteSanity
  rw [if_neg (by push_neg; exact ⟨hb, ha⟩), if_neg (not_le.mpr hba)]

/-- The sanity check either accepts a valid quote or rejects an invalid
one with some error. -/
theorem quoteSanity_cases (q : Quote) :
    (quoteSanity q = Except.ok () ∧ ValidQuote q) ∨
    ((∃ e, quoteSanity q = Except.error e) ∧
      (q.bid ≤ 0 ∨ q.ask ≤ 0 ∨ q.ask ≤ q.bid)) := by
  unfold quoteSanity
  split_ifs with h1 h2
  · exact Or.inr ⟨⟨_, rfl⟩, by tauto⟩
  · exact Or.inr ⟨⟨_, rfl⟩, Or.inr (Or.inr h2)⟩
  · push_neg at h1
    exact Or.inl ⟨rfl, h1.1, h1.2, not_le.mp h2⟩

/-- Dispatch: a passing sanity check reduces `submitQuote` to its body. -/
theorem submitQuote_sanity_ok {q : Quote} (ds : ℕ → ℝ) (S : Settings) (E : Engine)
    (sc : Scenario) (qty now : ℝ) (h : quoteSanity q = Except.ok ()) :
    submitQuote ds S E q sc qty now = submitQuoteBody ds S E q sc qty now := by
  unfold submitQuote
  rw [h]

/-- Dispatch: a failing sanity check propagates the error. -/
theorem submitQuote_sanity_err {q : Quote} {e : String} (ds : ℕ → ℝ) (S : Settings)
    (E : Engine) (sc : Scenario) (qty now : ℝ) (h : quoteSanity q = Except.error e) :
    submitQuote ds S E q sc qty now = Except.error e := by
  unfold submitQuote
  rw [h]

/-- The fill-settlement tail never throws. -/
theorem settleFill_isOk (S : Settings) (E : Engine) (f : Fill) (k2 : ℕ) :
    ∃ p, settleFill S E f k2 = Except.ok p := by
  unfold settleFill
  split_ifs <;> exact ⟨_, rfl⟩

/-- Inversion: a rejected candidate fill leaves the state untouched and
only advances the RNG position. -/
theorem settleFill_none {S : Settings} {E : Engine} {f : Fill} {k2 : ℕ} {E2 : Engine}
    (h : settleFill S E f k2 = Except.ok (none, E2)) :
    E2 = { E with k := k2 } := by
  unfold settleFill at h
  split at h <;> split at h <;>
    first
      | (simp only [Except.ok.injEq, Prod.mk.injEq] at h; exact h.2.symm)
      | simp at h

/-- Inversion: an accepted fill is the candidate fill, satisfies the
inventory bound, and updates the state exactly as the source does. -/
theorem settleFill_some {S : Settings} {E : Engine} {f : Fill} {k2 : ℕ}
    {g : Fill} {E2 : Engine}
    (h : settleFill S E f k2 = Except.ok (some g, E2)) :
    g = f ∧
    |E.state.inv + (if f.side = Side.BUY then f.qty else -f.qty)| ≤ S.inventoryLimit ∧
    ((f.side = Side.BUY ∧
        E2 = ⟨⟨E.state.cash - f.price * f.qty, E.state.inv + f.qty, E.state.realized,
               some f.scenario.trueValue, E.state.fills ++ [f]⟩, k2⟩) ∨
     (f.side = Side.SELL ∧
        E2 = ⟨⟨E.state.cash + f.price * f.qty, E.state.inv - f.qty, E.state.realized,
               some f.scenario.trueValue, E.state.fills ++ [f]⟩, k2⟩)) := by
  unfold settleFill at h
  split at h
  next h1 =>
    split at h
    next hlim => simp at h
    next hlim =>
      simp only [Except.ok.injEq, Prod.mk.injEq, Option.some.injEq] at h
      refine ⟨h.1.symm, ?_, Or.inl ⟨h1, h.2.symm⟩⟩
      rw [if_pos h1]
      exact not_lt.mp hlim
  next h1 =>
    split at h
    next hlim => simp at h
    next hlim =>
      simp only [Except.ok.injEq, Prod.mk.injEq, Option.some.injEq] at h
      have hside : f.side = Side.SELL := by
        cases hf : f.side
        · exact absurd hf h1
        · rfl
      refine ⟨h.1.symm, ?_, Or.inr ⟨hside, h.2.symm⟩⟩
      rw [if_neg h1]
      exact not_lt.mp hlim

/-- The body of `submitQuote` never throws. -/
theorem submitQuoteBody_isOk (ds : ℕ → ℝ) (S : Settings) (E : Engine)
    (q : Quote) (sc : Scenario) (qty now : ℝ) :
    ∃ p, submitQuoteBody ds S E q sc qty now = Except.ok p := by
  simp only [submitQuoteBody]
  split_ifs <;> first
    | exact settleFill_isOk ..
    | exact ⟨_, rfl⟩

/-- Inversion: a no-fill body outcome leaves the state untouched. -/
theorem submitQuoteBody_none_state {ds : ℕ → ℝ} {S : Settings} {E : Engine}
    {q : Quote} {sc : Scenario} {qty now : ℝ} {E2 : Engine}
    (h : submitQuoteBody ds S E q sc qty now = Except.ok (none, E2)) :
    E2.state = E.state := by
  simp only [submitQuoteBody] at h
  split_ifs at h
  · rw [settleFill_none h]
  · rw [settleFill_none h]
  · rw [settleFill_none h]
  · rw [settleFill_none h]
  · simp only [Except.ok.injEq, Prod.mk.injEq] at h
    rw [← h.2]

/-- Inversion: a no-fill `submitQuote` outcome leaves the state untouched. -/
theorem submitQuote_none_state {ds : ℕ → ℝ} {S : Settings} {E : Engine}
    {q : Quote} {sc : Scenario} {qty now : ℝ} {E2 : Engine}
    (h : submitQuote ds S E q sc qty now = Except.ok (none, E2)) :
    E2.state = E.state := by
  rcases quoteSanity_cases q with ⟨hok, _⟩ | ⟨⟨e, herr⟩, _⟩
  · rw [submitQuote_sanity_ok ds S E sc qty now hok] at h
    exact submitQuoteBody_none_state h
  · rw [submitQuote_sanity_err ds S E sc qty now herr] at h
    exact Except.noConfusion h

/-- Inversion: a returned fill carries the call's scenario, quantity and
timestamp, and the outcome is a settlement of that very fill. -/
theorem submitQuote_some_shape {ds : ℕ → ℝ} {S : Settings} {E : Engine}
    {q : Quote} {sc : Scenario} {qty now : ℝ} {f : Fill} {E2 : Engine}
    (h : submitQuote ds S E q sc qty now = Except.ok (some f, E2)) :
    f.scenario = sc ∧ f.qty = qty ∧ f.ts = now ∧
      ∃ k2, settleFill S E f k2 = Except.ok (some f, E2) := by
  rcases quoteSanity_cases q with ⟨hok, _⟩ | ⟨⟨e, herr⟩, _⟩
  · rw [submitQuote_sanity_ok ds S E sc qty now hok] at h
    simp only [submitQuoteBody] at h
    split_ifs at h
    · obtain ⟨hg, -, -⟩ := settleFill_some h
      exact ⟨by rw [hg], by rw [hg], by rw [hg], E.k + 3, by rw [hg] at h ⊢; exact h⟩
    · obtain ⟨hg, -, -⟩ := settleFill_some h
      exact ⟨by rw [hg], by rw [hg], by rw [hg], E.k + 3, by rw [hg] at h ⊢; exact h⟩
    · obtain ⟨hg, -, -⟩ := settleFill_some h
      exact ⟨by rw [hg], by rw [hg], by rw [hg], E.k + 5, by rw [hg] at h ⊢; exact h⟩
    · obtain ⟨hg, -, -⟩ := settleFill_some h
      exact ⟨by rw [hg], by rw [hg], by rw [hg], E.k + 5, by rw [hg] at h ⊢; exact h⟩
    · simp at h
  · rw [submitQuote_sanity_err ds S E sc qty now herr] at h
    exact Except.noConfusion h

/-- A valid quote never throws. -/
theorem submitQuote_ok_of_valid {q : Quote} (ds : ℕ → ℝ) (S : Settings) (E : Engine)
    (sc : Scenario) (qty now : ℝ) (hq : ValidQuote q) :
    ∃ p, submitQuote ds S E q sc qty now = Except.ok p := by
  obtain ⟨p, hp⟩ := submitQuoteBody_isOk ds S E q sc qty now
  exact ⟨p, by rw [submitQuote_sanity_ok ds S E sc qty now (quoteSanity_ok_of_valid hq), hp]⟩

/-- After any successful call the inventory is either unchanged or within
the hard limit. -/
theorem submitQuote_inv_bound {ds : ℕ → ℝ} {S : Settings} {E : Engine}
    {q : Quote} {sc : Scenario} {qty now : ℝ} {of : Option Fill} {E2 : Engine}
    (h : submitQuote ds S E q sc qty now = Except.ok (of, E2)) :
    E2.state.inv = E.state.inv ∨ |E2.state.inv| ≤ S.inventoryLimit := by
  cases of with
  | none => exact Or.inl (by rw [submitQuote_none_state h])
  | some f =>
    obtain ⟨-, -, -, k2, hs⟩ := submitQuote_some_shape h
    obtain ⟨-, hb, hE⟩ := settleFill_some hs
    rcases hE with ⟨hside, rfl⟩ | ⟨hside, rfl⟩
    · exact Or.inr (by simpa [hside] using hb)
    · exact Or.inr (by simpa [hside] using hb)

/-- No successful call ever writes the `realized` field. -/
theorem submitQuote_realized {ds : ℕ → ℝ} {S : Settings} {E : Engine}
    {q : Quote} {sc : Scenario} {qty now : ℝ} {of : Option Fill} {E2 : Engine}
    (h : submitQuote ds S E q sc qty now = Except.ok (of, E2)) :
    E2.state.realized = E.state.realized := by
  cases of with
  | none => rw [submitQuote_none_state h]
  | some f =>
    obtain ⟨-, -, -, k2, hs⟩ := submitQuote_some_shape h
    obtain ⟨-, -, hE⟩ := settleFill_some hs
    rcases hE with ⟨-, rfl⟩ | ⟨-, rfl⟩ <;> rfl

/-- Valid call sequences run to completion with the inventory bound
preserved at every step. -/
theorem runCalls_ok_bound (ds : ℕ → ℝ) (S : Settings)
    (calls : List Call) :
    ∀ E : Engine, (∀ c ∈ calls, ValidCall c) →
      |E.state.inv| ≤ S.inventoryLimit →
      ∃ E2, runCalls ds S E calls = Except.ok E2 ∧
        |E2.state.inv| ≤ S.inventoryLimit := by
  induction calls with
  | nil => exact fun E _ hE => ⟨E, rfl, hE⟩
  | cons c cs ih =>
    intro E hv hE
    obtain ⟨⟨of, E1⟩, hp⟩ :=
      submitQuote_ok_of_valid ds S E c.sc c.qty c.now (hv c (by simp)).1
    have hb : |E1.state.inv| ≤ S.inventoryLimit := by
      rcases submitQuote_inv_bound hp with h | h
      · rw [h]; exact hE
      · exact h
    obtain ⟨E2, h2, hb2⟩ := ih E1 (fun c2 hc2 => hv c2 (by simp [hc2])) hb
    refine ⟨E2, ?_, hb2⟩
    unfold runCalls
    rw [hp]
    exact h2

/-- Successful runs never write the `realized` field. -/
theorem runCalls_realized (ds : ℕ → ℝ) (S : Settings) (calls : List Call) :
    ∀ E E2 : Engine, runCalls ds S E calls = Except.ok E2 →
      E2.state.realized = E.state.realized := by
  induction calls with
  | nil =>
    intro E E2 h
    unfold runCalls at h
    rw [← Except.ok.inj h]
  | cons c cs ih =>
    intro E E2 h
    unfold runCalls at h
    split at h
    · exact Except.noConfusion h
    · next p E1 heq => exact (ih _ _ h).trans (submitQuote_realized heq)

end TradingGame

namespace TradingGame

/-- C1: for every engine constructed with a positive inventoryLimit,
starting from the fresh state, every sequence of `submitQuote` calls with
valid quotes (positive finite bid and ask, bid < ask) and positive
quantities throws no error, and after every call (i.e. after every prefix
of the sequence) the state satisfies |inventory| ≤ inventoryLimit.  The
draw stream `ds` is universally quantified, so this covers both the
seeded (mulberry32) and unseeded (Math.random) engine. -/
theorem claim1_inventory_invariant (ds : ℕ → ℝ) (S : Settings)
    (hL : 0 < S.inventoryLimit) (calls : List Call)
    (hv : ∀ c ∈ calls, ValidCall c) (pre suf : List Call)
    (hsplit : calls = pre ++ suf) :
    ∃ E2, runCalls ds S engineFresh pre = Except.ok E2 ∧
      |E2.state.inv| ≤ S.inventoryLimit := by
  apply runCalls_ok_bound ds S pre engineFresh
  · intro c hc
    exact hv c (by rw [hsplit]; exact List.mem_append_left _ hc)
  · simpa [engineFresh] using hL.le

/-- Witness for C1 at a concrete valid one-call sequence. -/
theorem claim1_inventory_invariant_witness :
    (∀ c ∈ [callA], ValidCall c) ∧
    ∃ E2, runCalls ds0 S1 engineFresh [callA] = Except.ok E2 ∧
      |E2.state.inv| ≤ S1.inventoryLimit := by
  have hv : ∀ c ∈ [callA], ValidCall c := by
    intro c hc
    rw [List.mem_singleton] at hc
    subst hc
    exact ⟨⟨by norm_num [callA, q1], by norm_num [callA, q1], by norm_num [callA, q1]⟩,
      by norm_num [callA]⟩
  exact ⟨hv, claim1_inventory_invariant ds0 S1 (by norm_num [S1]) [callA] hv [callA] [] rfl⟩

/-- C2: `submitQuote` throws if and only if the quote fails the sanity
contract (in the real-number model every value is finite, so the
non-finiteness disjunct of the contract is vacuous), and on an invalid
quote the result is determined by the quote alone — independent of the
draw stream, settings, engine state, scenario, quantity and call time —
which expresses that the throw happens synchronously before any random
draw and without any state mutation (in this embedding a thrown call
returns no engine at all, so the caller's state is untouched by
construction). -/
theorem claim2_invalid_quote_error (ds : ℕ → ℝ) (S : Settings) (E : Engine)
    (q : Quote) (sc : Scenario) (qty now : ℝ) :
    ((∃ e, submitQuote ds S E q sc qty now = Except.error e) ↔
      (q.bid ≤ 0 ∨ q.ask ≤ 0 ∨ q.ask ≤ q.bid)) ∧
    ((q.bid ≤ 0 ∨ q.ask ≤ 0 ∨ q.ask ≤ q.bid) →
      ∀ (ds2 : ℕ → ℝ) (S2 : Settings) (E2 : Engine) (sc2 : Scenario) (qty2 now2 : ℝ),
        submitQuote ds S E q sc qty now = submitQuote ds2 S2 E2 q sc2 qty2 now2) := by
  rcases quoteSanity_cases q with ⟨hok, hval⟩ | ⟨⟨e, herr⟩, hcond⟩
  · constructor
    · constructor
      · rintro ⟨e, he⟩
        rw [submitQuote_sanity_ok ds S E sc qty now hok] at he
        obtain ⟨p, hp⟩ := submitQuoteBody_isOk ds S E q sc qty now
        rw [hp] at he
        exact Except.noConfusion he
      · intro hcond
        exfalso
        rcases hcond with h | h | h
        · linarith [hval.1]
        · linarith [hval.2.1]
        · linarith [hval.2.2]
    · intro hcond
      exfalso
      rcases hcond with h | h | h
      · linarith [hval.1]
      · linarith [hval.2.1]
      · linarith [hval.2.2]
  · refine ⟨⟨fun _ => hcond, fun _ => ⟨e, submitQuote_sanity_err ds S E sc qty now herr⟩⟩, ?_⟩
    intro _ ds2 S2 E2 sc2 qty2 now2
    rw [submitQuote_sanity_err ds S E sc qty now herr,
      submitQuote_sanity_err ds2 S2 E2 sc2 qty2 now2 herr]

/-- Witness for C2 at the concrete inverted quote bid = 2, ask = 1. -/
theorem claim2_invalid_quote_error_witness :
    ∃ e, submitQuote ds0 S1 engineFresh ⟨2, 1⟩ sc1 1 0 = Except.error e :=
  (claim2_invalid_quote_error ds0 S1 engineFresh ⟨2, 1⟩ sc1 1 0).1.mpr
    (by right; right; norm_num)

/-- C3: every returned fill updates the ledger by exactly one of the two
side-specific cash/inventory deltas, appends the fill exactly once,
sets the last mark to the scenario's true value, and changes nothing
else (in particular `realized` is untouched). -/
theorem claim3_fill_accounting (ds : ℕ → ℝ) (S : Settings) (E : Engine)
    (q : Quote) (sc : Scenario) (qty now : ℝ) (f : Fill) (E2 : Engine)
    (h : submitQuote ds S E q sc qty now = Except.ok (some f, E2)) :
    Xor' (f.side = Side.BUY ∧ E2.state.cash = E.state.cash - f.price * f.qty ∧
            E2.state.inv = E.state.inv + f.qty)
         (f.side = Side.SELL ∧ E2.state.cash = E.state.cash + f.price * f.qty ∧
            E2.state.inv = E.state.inv - f.qty) ∧
    E2.state.fills = E.state.fills ++ [f] ∧
    E2.state.fills.length = E.state.fills.length + 1 ∧
    E2.state.lastMark = some sc.trueValue ∧
    E2.state.realized = E.state.realized := by
  obtain ⟨hsc, hqty, hts, k2, hs⟩ := submitQuote_some_shape h
  obtain ⟨-, hb, hE⟩ := settleFill_some hs
  rcases hE with ⟨hside, rfl⟩ | ⟨hside, rfl⟩
  · refine ⟨Or.inl ⟨⟨hside, rfl, rfl⟩, ?_⟩, rfl, by simp, by rw [hsc], rfl⟩
    rintro ⟨hS, -⟩
    rw [hside] at hS
    exact Side.noConfusion hS
  · refine ⟨Or.inr ⟨⟨hside, rfl, rfl⟩, ?_⟩, rfl, by simp, by rw [hsc], rfl⟩
    rintro ⟨hS, -⟩
    rw [hside] at hS
    exact Side.noConfusion hS

/-- C4: every valid-quote call that returns no fill — no trade generated,
or candidate rejected by the inventory-limit check — leaves cash,
inventory, fills and lastMark (the whole state record) exactly unchanged. -/
theorem claim4_no_fill_frame (ds : ℕ → ℝ) (S : Settings) (E : Engine)
    (q : Quote) (sc : Scenario) (qty now : ℝ) (E2 : Engine)
    (_hq : ValidQuote q)
    (h : submitQuote ds S E q sc qty now = Except.ok (none, E2)) :
    E2.state = E.state :=
  submitQuote_none_state h

/-- C7: `pnl` is a pure function of state and mark computing
mtm = cash + inventory × mark and riskAdj = mtm − riskAversion × |inventory|
× 0.01 × mark, and on the fresh zero-fill state it returns all zeros.
Purity (no state mutation, identical results on identical inputs) holds
by construction: `pnl` is a function of `(S, st, mark)`. -/
theorem claim7_pnl_pure (S : Settings) (st : State) (mark : ℝ) :
    pnl S st mark = ⟨st.cash, st.inv, st.cash + st.inv * mark,
      st.cash + st.inv * mark - S.riskAversion * |st.inv| * 0.01 * mark⟩ ∧
    pnl S engineFresh.state mark = ⟨0, 0, 0, 0⟩ := by
  constructor
  · rfl
  · unfold pnl engineFresh
    simp

/-- C8: `breakEven` returns the absent value iff inventory is exactly 0,
and otherwise returns exactly −cash / inventory.  It is a pure function
of the state, so it performs no mutation by construction. -/
theorem claim8_break_even (st : State) :
    (breakEven st = none ↔ st.inv = 0) ∧
    (st.inv ≠ 0 → breakEven st = some (-st.cash / st.inv)) := by
  unfold breakEven
  by_cases h : st.inv = 0 <;> simp [h]

/-- Witness for C8 at the concrete state cash = 5, inv = 2. -/
theorem claim8_break_even_witness :
    breakEven ⟨5, 2, 0, none, []⟩ = some (-5 / 2) := by
  have h := (claim8_break_even ⟨5, 2, 0, none, []⟩).2 (by norm_num)
  simpa using h

/-- C10: the `realized` field is 0 at construction and no sequence of
`submitQuote` calls ever writes it, so it is 0 in every reachable state.
(`pnl`, `defaultQuote` and `breakEven` are read-only functions of the
state in this embedding, so they cannot write it either.) -/
theorem claim10_realized_zero :
    engineFresh.state.realized = 0 ∧
    ∀ (ds : ℕ → ℝ) (S : Settings) (calls : List Call) (E2 : Engine),
      runCalls ds S engineFresh calls = Except.ok E2 →
      E2.state.realized = 0 := by
  refine ⟨rfl, ?_⟩
  intro ds S calls E2 h
  rw [runCalls_realized ds S calls engineFresh E2 h]
  rfl

/-- Witness for C10 at the empty call sequence. -/
theorem claim10_realized_zero_witness : engineFresh.state.realized = 0 :=
  claim10_realized_zero.2 ds0 S1 [] engineFresh rfl

end TradingGame

namespace TradingGame

/-- Numeric bound: exp 2 < 7.39. -/
theorem exp_two_lt : Real.exp 2 < 7.39 := by
  have h : Real.exp 2 = Real.exp 1 ^ 2 := by
    rw [← Real.exp_nat_mul]
    norm_num
  have hp : (0:ℝ) < Real.exp 1 := Real.exp_pos 1
  have h1 := Real.exp_one_lt_d9
  nlinarith

/-- Numeric bound: 0.135 < exp (−2). -/
theorem exp_neg_two_gt : (0.135 : ℝ) < Real.exp (-2) := by
  have h2 := exp_two_lt
  have hp : (0:ℝ) < Real.exp 2 := Real.exp_pos 2
  rw [Real.exp_neg, lt_inv_comm₀ (by norm_num) hp]
  calc Real.exp 2 < 7.39 := h2
    _ ≤ (0.135:ℝ)⁻¹ := by norm_num

/-- Numeric bound: 2^32 < exp 23. -/
theorem exp_twentythree_gt : (4294967296 : ℝ) < Real.exp 23 := by
  have h : Real.exp 23 = Real.exp 1 ^ 23 := by
    rw [← Real.exp_nat_mul]
    norm_num
  rw [h]
  calc (4294967296:ℝ) < 2.7182818283 ^ 23 := by norm_num
    _ ≤ Real.exp 1 ^ 23 := pow_le_pow_left₀ (by norm_num) Real.exp_one_gt_d9.le 23

/-- Numeric bound: 10^12 < exp 28. -/
theorem exp_twentyeight_gt : (1e12 : ℝ) < Real.exp 28 := by
  have h : Real.exp 28 = Real.exp 1 ^ 28 := by
    rw [← Real.exp_nat_mul]
    norm_num
  rw [h]
  calc (1e12:ℝ) < 2.7182818283 ^ 28 := by norm_num
    _ ≤ Real.exp 1 ^ 28 := pow_le_pow_left₀ (by norm_num) Real.exp_one_gt_d9.le 28

/-- The Box–Muller-style variate of `sampleFair` is bounded by 7.5 in
absolute value whenever the first uniform draw is below 1 (thanks to the
`max(1e-12, u)` floor). -/
theorem zAbs_le (u v : ℝ) (h1 : u < 1) :
    |Real.sqrt (-2 * Real.log (max 1e-12 u)) * Real.cos (2 * Real.pi * v)| ≤ 7.5 := by
  have hw0 : (1e-12 : ℝ) ≤ max 1e-12 u := le_max_left _ _
  have hwpos : (0:ℝ) < max 1e-12 u := lt_of_lt_of_le (by norm_num) hw0
  have hw1 : max 1e-12 u ≤ 1 := max_le (by norm_num) h1.le
  have hlogge : (-28 : ℝ) ≤ Real.log (max 1e-12 u) := by
    rw [Real.le_log_iff_exp_le hwpos]
    calc Real.exp (-28) = (Real.exp 28)⁻¹ := Real.exp_neg 28
      _ ≤ (1e12:ℝ)⁻¹ := inv_anti₀ (by norm_num) exp_twentyeight_gt.le
      _ ≤ 1e-12 := by norm_num
      _ ≤ max 1e-12 u := hw0
  have harg : -2 * Real.log (max 1e-12 u) ≤ 56.25 := by linarith
  have hsq : Real.sqrt (-2 * Real.log (max 1e-12 u)) ≤ 7.5 := by
    calc Real.sqrt (-2 * Real.log (max 1e-12 u)) ≤ Real.sqrt 56.25 := Real.sqrt_le_sqrt harg
      _ = 7.5 := by
          rw [show (56.25:ℝ) = 7.5 ^ 2 by norm_num]
          exact Real.sqrt_sq (by norm_num)
  calc |Real.sqrt (-2 * Real.log (max 1e-12 u)) * Real.cos (2 * Real.pi * v)|
      = Real.sqrt (-2 * Real.log (max 1e-12 u)) * |Real.cos (2 * Real.pi * v)| := by
        rw [abs_mul, abs_of_nonneg (Real.sqrt_nonneg _)]
    _ ≤ 7.5 * 1 := mul_le_mul hsq (Real.abs_cos_le_one _) (abs_nonneg _) (by norm_num)
    _ = 7.5 := by norm_num

/-- On a true value of 1 the sampled fair value lies in [exp(−2), exp 2]
whenever the first uniform draw is below 1. -/
theorem fairOf_bounds (ds : ℕ → ℝ) (sc : Scenario) (k : ℕ)
    (hT : sc.trueValue = 1) (h1 : ds k < 1) :
    Real.exp (-2) ≤ fairOf ds sc k ∧ fairOf ds sc k ≤ Real.exp 2 := by
  have hz := zAbs_le (ds k) (ds (k + 1)) h1
  rw [abs_le] at hz
  unfold fairOf
  rw [hT, one_mul]
  exact ⟨Real.exp_le_exp.mpr (by linarith), Real.exp_le_exp.mpr (by linarith)⟩

/-- The logistic probability is positive. -/
theorem pOf_pos (e s : ℝ) : 0 < pOf e s := by
  unfold pOf
  positivity

/-- With unit scale, a negative edge gives probability below 1/2. -/
theorem pOf_lt_half (e : ℝ) (he : e < 0) : pOf e 1 < 1 / 2 := by
  unfold pOf
  rw [div_one]
  have h1 : (1:ℝ) < Real.exp (-e) := Real.one_lt_exp_iff.mpr (by linarith)
  rw [div_lt_div_iff₀ (by positivity) (by norm_num)]
  linarith

/-- With unit scale, an edge of at least 23 puts the probability above
0.60 and above every draw r ≤ 1 − 2⁻³². -/
theorem pOf_ge_big (e : ℝ) (he : 23 ≤ e) :
    0.60 < pOf e 1 ∧ ∀ r : ℝ, r ≤ 1 - 1 / 4294967296 → r < pOf e 1 := by
  unfold pOf
  rw [div_one]
  have hEpos : (0:ℝ) < Real.exp (-e) := Real.exp_pos _
  have hE : Real.exp (-e) ≤ Real.exp (-23) := Real.exp_le_exp.mpr (by linarith)
  have hE2 : Real.exp (-23) < 1 / 4294967296 := by
    rw [Real.exp_neg]
    rw [inv_lt_comm₀ (Real.exp_pos 23) (by norm_num)]
    calc (1 / 4294967296 : ℝ)⁻¹ = 4294967296 := by norm_num
      _ < Real.exp 23 := exp_twentythree_gt
  have hde : (0:ℝ) < 1 + Real.exp (-e) := by positivity
  constructor
  · rw [lt_div_iff₀ hde]
    nlinarith
  · intro r hr
    rw [lt_div_iff₀ hde]
    nlinarith [mul_le_mul_of_nonneg_right hr hde.le]

/-- The damping factor never exceeds 1. -/
theorem dampOf_le_one (S : Settings) (st : State) : dampOf S st ≤ 1 := by
  unfold dampOf clamp
  exact min_le_left _ _

/-- At zero inventory the damping factor is exactly 1. -/
theorem dampOf_zero_inv (S : Settings) (st : State) (h : st.inv = 0) :
    dampOf S st = 1 := by
  unfold dampOf clamp
  rw [h]
  have h2 : (1:ℝ) - 0.35 * (|(0:ℝ)| / max 1 S.inventoryLimit) = 1 := by simp
  rw [h2, max_eq_right (by norm_num : (0.35:ℝ) ≤ 1), min_self]

/-- The scale of the unit-value scenario is 1. -/
theorem scaleOf_sc1 : scaleOf sc1 = 1 := by
  simp only [scaleOf, sc1]
  rw [max_eq_left (by norm_num)]

end TradingGame

namespace TradingGame

/-- For the quote `q1` = (100, 101) on the unit-value scenario at zero
inventory: the buy-side directional condition fails (the fair value is
far below the ask) and the sell-side directional condition holds for any
draw r ≤ 1 − 2⁻³² (the fair value is far below the bid, so the customer
sells with near certainty). -/
theorem branches_q1 (ds : ℕ → ℝ) (S : Settings) (E : Engine)
    (hinv : E.state.inv = 0)
    (h1 : ds E.k < 1) (hr : ds (E.k + 2) ≤ 1 - 1 / 4294967296) :
    ¬(pOf (fairOf ds sc1 E.k - q1.ask) (scaleOf sc1) * dampOf S E.state > 0.60 ∧
        ds (E.k + 2) < pOf (fairOf ds sc1 E.k - q1.ask) (scaleOf sc1) * dampOf S E.state) ∧
    (pOf (q1.bid - fairOf ds sc1 E.k) (scaleOf sc1) * dampOf S E.state > 0.60 ∧
        ds (E.k + 2) < pOf (q1.bid - fairOf ds sc1 E.k) (scaleOf sc1) * dampOf S E.state) := by
  have hdamp : dampOf S E.state = 1 := dampOf_zero_inv S E.state hinv
  have hfair := fairOf_bounds ds sc1 E.k rfl h1
  have hub : fairOf ds sc1 E.k ≤ Real.exp 2 := hfair.2
  have hlb : Real.exp (-2) ≤ fairOf ds sc1 E.k := hfair.1
  have he2 := exp_two_lt
  have hem2 := exp_neg_two_gt
  rw [scaleOf_sc1, hdamp]
  simp only [mul_one]
  constructor
  · rintro ⟨hPB, -⟩
    have hask : q1.ask = 101 := rfl
    have hneg : fairOf ds sc1 E.k - q1.ask < 0 := by rw [hask]; linarith
    have := pOf_lt_half _ hneg
    linarith
  · have hbid : q1.bid = 100 := rfl
    have hgt : (23:ℝ) ≤ q1.bid - fairOf ds sc1 E.k := by rw [hbid]; linarith
    obtain ⟨hgt6, hrlt⟩ := pOf_ge_big _ hgt
    exact ⟨hgt6, hrlt _ hr⟩

/-- For the quote `q0` = (0.1, 10) on the unit-value scenario at zero
inventory, neither directional condition can hold: the fair value lies
strictly inside the (very wide) quoted spread. -/
theorem branches_q0 (ds : ℕ → ℝ) (S : Settings) (E : Engine)
    (hinv : E.state.inv = 0) (h1 : ds E.k < 1) :
    ¬(pOf (fairOf ds sc1 E.k - q0.ask) (scaleOf sc1) * dampOf S E.state > 0.60 ∧
        ds (E.k + 2) < pOf (fairOf ds sc1 E.k - q0.ask) (scaleOf sc1) * dampOf S E.state) ∧
    ¬(pOf (q0.bid - fairOf ds sc1 E.k) (scaleOf sc1) * dampOf S E.state > 0.60 ∧
        ds (E.k + 2) < pOf (q0.bid - fairOf ds sc1 E.k) (scaleOf sc1) * dampOf S E.state) := by
  have hdamp : dampOf S E.state = 1 := dampOf_zero_inv S E.state hinv
  have hfair := fairOf_bounds ds sc1 E.k rfl h1
  have he2 := exp_two_lt
  have hem2 := exp_neg_two_gt
  rw [scaleOf_sc1, hdamp]
  simp only [mul_one]
  constructor
  · rintro ⟨hPB, -⟩
    have hask : q0.ask = 10 := rfl
    have hneg : fairOf ds sc1 E.k - q0.ask < 0 := by rw [hask]; linarith [hfair.2]
    have := pOf_lt_half _ hneg
    linarith
  · rintro ⟨hPS, -⟩
    have hbid : q0.bid = 1 / 10 := rfl
    have hneg : q0.bid - fairOf ds sc1 E.k < 0 := by rw [hbid]; linarith [hfair.1]
    have := pOf_lt_half _ hneg
    linarith

end TradingGame

namespace TradingGame

/-- Submitting `q1` on the unit scenario from the fresh engine settles a
maker-BUY fill at the bid for any draw stream whose first draw is below 1
and whose third draw is at most 1 − 2⁻³², provided the inventory limit
is 1 (so the fill of quantity 1 is accepted exactly at the limit). -/
theorem submitQuote_q1_eq (ds : ℕ → ℝ) (S : Settings) (now : ℝ)
    (hL : S.inventoryLimit = 1)
    (h1 : ds 0 < 1) (hr : ds 2 ≤ 1 - 1 / 4294967296) :
    submitQuote ds S engineFresh q1 sc1 1 now =
      Except.ok (some ⟨Side.BUY, q1.bid, 1, sc1, fairOf ds sc1 0, now⟩,
        ⟨⟨-100, 1, 0, some 1, [⟨Side.BUY, q1.bid, 1, sc1, fairOf ds sc1 0, now⟩]⟩, 3⟩) := by
  have hq : ValidQuote q1 := ⟨by norm_num [q1], by norm_num [q1], by norm_num [q1]⟩
  obtain ⟨hPB, hPS⟩ := branches_q1 ds S engineFresh rfl h1 hr
  rw [submitQuote_sanity_ok ds S engineFresh sc1 1 now (quoteSanity_ok_of_valid hq)]
  simp only [submitQuoteBody]
  rw [if_neg hPB, if_pos hPS]
  unfold settleFill
  rw [hL]
  norm_num [engineFresh, q1, sc1]

/-- Submitting `q0` on the unit scenario from the fresh engine yields no
fill whenever the random-flow draw fails its threshold; only the RNG
position advances (by the four draws consumed). -/
theorem submitQuote_q0_eq (ds : ℕ → ℝ) (S : Settings) (now : ℝ)
    (h1 : ds 0 < 1)
    (hflow : ¬(ds (engineFresh.k + 3) < 0.06 * dampOf S engineFresh.state)) :
    submitQuote ds S engineFresh q0 sc1 1 now =
      Except.ok (none, ⟨engineFresh.state, engineFresh.k + 4⟩) := by
  have hq : ValidQuote q0 := ⟨by norm_num [q0], by norm_num [q0], by norm_num [q0]⟩
  obtain ⟨hPB, hPS⟩ := branches_q0 ds S engineFresh rfl h1
  rw [submitQuote_sanity_ok ds S engineFresh sc1 1 now (quoteSanity_ok_of_valid hq)]
  simp only [submitQuoteBody]
  rw [if_neg hPB, if_neg hPS, if_neg hflow]

/-- Xoring a value below 2³² with its right shift stays below 2³². -/
theorem xorShift14_lt {t2 : ℕ} (h : t2 < 2 ^ 32) : t2 ^^^ (t2 >>> 14) < 2 ^ 32 :=
  Nat.xor_lt_two_pow h
    (lt_of_le_of_lt (by rw [Nat.shiftRight_eq_div_pow]; exact Nat.div_le_self _ _) h)

/-- Every mulberry32 output pattern is below 2³². -/
theorem m32next_out_lt (a0 : ℕ) : (m32next a0).2 < 4294967296 := by
  have h232 : (4294967296:ℕ) = 2 ^ 32 := by norm_num
  have hx : ∀ m : ℕ, m % 4294967296 < 2 ^ 32 := by
    intro m
    rw [← h232]
    exact Nat.mod_lt _ (by norm_num)
  simp only [m32next]
  rw [h232]
  exact xorShift14_lt (Nat.xor_lt_two_pow (hx _) (hx _))

/-- Every mulberry32 stream value lies in [0, 1 − 2⁻³²]. -/
theorem m32stream_mem (seed n : ℕ) :
    0 ≤ m32stream seed n ∧ m32stream seed n ≤ 1 - 1 / 4294967296 := by
  unfold m32stream
  constructor
  · positivity
  · rw [div_le_iff₀ (by norm_num : (0:ℝ) < 4294967296)]
    have hlt := m32next_out_lt (m32state seed n)
    have hle : ((m32next (m32state seed n)).2 : ℝ) ≤ 4294967295 := by
      exact_mod_cast Nat.le_of_lt_succ hlt
    rw [show ((1:ℝ) - 1 / 4294967296) * 4294967296 = 4294967295 by norm_num]
    exact hle

/-- Unfolding one successful call of a run. -/
theorem runCalls_cons_ok {ds : ℕ → ℝ} {S : Settings} {E : Engine} {c : Call}
    {cs : List Call} {of : Option Fill} {E2 : Engine}
    (h : submitQuote ds S E c.q c.sc c.qty c.now = Except.ok (of, E2)) :
    runCalls ds S E (c :: cs) = runCalls ds S E2 cs := by
  simp only [runCalls]
  rw [h]

/-- The concrete `q1` call under the constant-1/2 stream produces `fill1`. -/
theorem submit1_eq : submitQuote ds0 S1 engineFresh q1 sc1 1 0 =
    Except.ok (some fill1, E1) :=
  submitQuote_q1_eq ds0 S1 0 rfl (by norm_num [ds0]) (by norm_num [ds0])

/-- Running the single `q1` call under the constant-1/2 stream yields `E1`. -/
theorem run1_eq : runCalls ds0 S1 engineFresh [callA] = Except.ok E1 := by
  rw [runCalls_cons_ok submit1_eq]
  rfl

/-- The concrete `q0` call under the constant-1/2 stream produces no fill. -/
theorem submit0_eq : submitQuote ds0 S1 engineFresh q0 sc1 1 0 =
    Except.ok (none, ⟨engineFresh.state, engineFresh.k + 4⟩) := by
  apply submitQuote_q0_eq ds0 S1 0 (by norm_num [ds0])
  have hd := dampOf_le_one S1 engineFresh.state
  have : ds0 (engineFresh.k + 3) = 1 / 2 := rfl
  rw [this]
  push_neg
  nlinarith [dampOf_le_one S1 engineFresh.state]

/-- The seed-1 `q1` call observed at time 0 produces `fillA`. -/
theorem submitA_eq : submitQuote (m32stream 1) S5 engineFresh q1 sc1 1 0 =
    Except.ok (some fillA, EA) :=
  submitQuote_q1_eq (m32stream 1) S5 0 rfl
    (lt_of_le_of_lt (m32stream_mem 1 0).2 (by norm_num)) (m32stream_mem 1 2).2

/-- The seed-1 `q1` call observed at time 1 produces `fillB`. -/
theorem submitB_eq : submitQuote (m32stream 1) S5 engineFresh q1 sc1 1 1 =
    Except.ok (some fillB, EB) :=
  submitQuote_q1_eq (m32stream 1) S5 1 rfl
    (lt_of_le_of_lt (m32stream_mem 1 0).2 (by norm_num)) (m32stream_mem 1 2).2

/-- Seed-1 run of the `q1` call at time 0. -/
theorem runA_eq : runCalls (m32stream 1) S5 engineFresh [callA] = Except.ok EA := by
  rw [runCalls_cons_ok submitA_eq]
  rfl

/-- Seed-1 run of the `q1` call at time 1. -/
theorem runB_eq : runCalls (m32stream 1) S5 engineFresh [callB] = Except.ok EB := by
  rw [runCalls_cons_ok submitB_eq]
  rfl

end TradingGame

namespace TradingGame

/-- Clamping into [−1, 1] bounds the absolute value by 1. -/
theorem clamp_abs_le (x : ℝ) : |clamp x (-1) 1| ≤ 1 := by
  unfold clamp
  rw [abs_le]
  exact ⟨le_min (by norm_num) (le_max_left _ _), min_le_left _ _⟩

/-- C9: with a valid quote, the directional-fill decision is exactly the
source's two-branch rule: if the damped buy probability strictly exceeds
0.60 and the single draw r is strictly below it, the call settles the
SELL-at-ask candidate (customer buys) — checked first, so it takes
priority; otherwise, if the damped sell probability passes the same two
tests, the call settles the BUY-at-bid candidate; and when neither
directional condition holds, any fill still returned must come from the
random-flow branch, i.e. only when the flow draw is strictly below
0.06 × damp.  At most one fill per call is immediate from the return
type.  (A settled candidate can still be rejected by the inventory-limit
check inside `settleFill`; the claim describes the decision stage that
produces the directional candidate.) -/
theorem claim9_directional_rule (ds : ℕ → ℝ) (S : Settings) (E : Engine)
    (q : Quote) (sc : Scenario) (qty now : ℝ) (hq : ValidQuote q) :
    ((pOf (fairOf ds sc E.k - q.ask) (scaleOf sc) * dampOf S E.state > 0.60 ∧
        ds (E.k + 2) < pOf (fairOf ds sc E.k - q.ask) (scaleOf sc) * dampOf S E.state) →
      submitQuote ds S E q sc qty now =
        settleFill S E ⟨Side.SELL, q.ask, qty, sc, fairOf ds sc E.k, now⟩ (E.k + 3)) ∧
    (¬(pOf (fairOf ds sc E.k - q.ask) (scaleOf sc) * dampOf S E.state > 0.60 ∧
        ds (E.k + 2) < pOf (fairOf ds sc E.k - q.ask) (scaleOf sc) * dampOf S E.state) →
      (pOf (q.bid - fairOf ds sc E.k) (scaleOf sc) * dampOf S E.state > 0.60 ∧
        ds (E.k + 2) < pOf (q.bid - fairOf ds sc E.k) (scaleOf sc) * dampOf S E.state) →
      submitQuote ds S E q sc qty now =
        settleFill S E ⟨Side.BUY, q.bid, qty, sc, fairOf ds sc E.k, now⟩ (E.k + 3)) ∧
    (¬(pOf (fairOf ds sc E.k - q.ask) (scaleOf sc) * dampOf S E.state > 0.60 ∧
        ds (E.k + 2) < pOf (fairOf ds sc E.k - q.ask) (scaleOf sc) * dampOf S E.state) →
      ¬(pOf (q.bid - fairOf ds sc E.k) (scaleOf sc) * dampOf S E.state > 0.60 ∧
        ds (E.k + 2) < pOf (q.bid - fairOf ds sc E.k) (scaleOf sc) * dampOf S E.state) →
      ∀ (f : Fill) (E2 : Engine),
        submitQuote ds S E q sc qty now = Except.ok (some f, E2) →
        ds (E.k + 3) < 0.06 * dampOf S E.state) := by
  rw [submitQuote_sanity_ok ds S E sc qty now (quoteSanity_ok_of_valid hq)]
  refine ⟨fun hPB => ?_, fun hPB hPS => ?_, fun hPB hPS f E2 h => ?_⟩
  · simp only [submitQuoteBody]
    rw [if_pos hPB]
  · simp only [submitQuoteBody]
    rw [if_neg hPB, if_pos hPS]
  · simp only [submitQuoteBody] at h
    rw [if_neg hPB, if_neg hPS] at h
    by_cases hf : ds (E.k + 3) < 0.06 * dampOf S E.state
    · exact hf
    · rw [if_neg hf] at h
      simp at h

/-- Witness for C9: the concrete `q1` call takes the buy-at-bid
directional branch (buy-side condition fails, sell-side passes). -/
theorem claim9_directional_rule_witness :
    submitQuote ds0 S1 engineFresh q1 sc1 1 0 =
      settleFill S1 engineFresh
        ⟨Side.BUY, q1.bid, 1, sc1, fairOf ds0 sc1 0, 0⟩ (engineFresh.k + 3) := by
  obtain ⟨hPB, hPS⟩ :=
    branches_q1 ds0 S1 engineFresh rfl (by norm_num [ds0]) (by norm_num [ds0])
  exact (claim9_directional_rule ds0 S1 engineFresh q1 sc1 1 0
    ⟨by norm_num [q1], by norm_num [q1], by norm_num [q1]⟩).2.1 hPB hPS

/-- Witness for C3 at the concrete accepted fill `fill1`. -/
theorem claim3_fill_accounting_witness :
    E1.state.fills = engineFresh.state.fills ++ [fill1] ∧
    E1.state.lastMark = some sc1.trueValue ∧
    E1.state.realized = engineFresh.state.realized ∧
    fill1.side = Side.BUY ∧
    E1.state.cash = engineFresh.state.cash - fill1.price * fill1.qty ∧
    E1.state.inv = engineFresh.state.inv + fill1.qty := by
  obtain ⟨hx, hfills, hlen, hmark, hreal⟩ :=
    claim3_fill_accounting ds0 S1 engineFresh q1 sc1 1 0 fill1 E1 submit1_eq
  rcases hx with ⟨⟨hbuy, hcash, hinv⟩, -⟩ | ⟨⟨hsell, -, -⟩, -⟩
  · exact ⟨hfills, hmark, hreal, hbuy, hcash, hinv⟩
  · exact absurd hsell (by simp [fill1])

/-- Witness for C4 at the concrete no-fill call of `q0`. -/
theorem claim4_no_fill_frame_witness :
    (⟨engineFresh.state, engineFresh.k + 4⟩ : Engine).state = engineFresh.state :=
  claim4_no_fill_frame ds0 S1 engineFresh q0 sc1 1 0 _
    ⟨by norm_num [q0], by norm_num [q0], by norm_num [q0]⟩ submit0_eq

end TradingGame

namespace TradingGame

/-- C6 (amended): `defaultQuote` always returns a strictly positive bid
(the 1e-6 floor); and it returns bid < ask for every state and every
estimate > 1e-6 provided the inventory-skew coefficient is at most 1
(and invSkew, spreadWiden ≥ 0).  Quantifying over all states subsumes
every reachable inventory state. -/
theorem claim6_default_quote_amended (S : Settings) (st : State) (estimate : ℝ) :
    0 < (defaultQuote S st estimate).bid ∧
    (0 ≤ S.invSkew → S.invSkew ≤ 1 → 0 ≤ S.spreadWiden → 1e-6 < estimate →
      (defaultQuote S st estimate).bid < (defaultQuote S st estimate).ask) := by
  constructor
  · simp only [defaultQuote]
    exact lt_of_lt_of_le (by norm_num) (le_max_left _ _)
  · intro h1 h2 h3 h4
    simp only [defaultQuote]
    set n := clamp (st.inv / max 1 S.inventoryLimit) (-1) 1 with hn
    set b := (if S.spreadType = SpreadType.percent then
        max (estimate * S.percentSpread * 0.5) 1e-6
      else max (S.predefinedSpread * 0.5) 1e-6) with hb
    have hnb : |n| ≤ 1 := by
      rw [hn]
      exact clamp_abs_le _
    have hbase : (1e-6:ℝ) ≤ b := by
      rw [hb]
      split_ifs <;> exact le_max_right _ _
    have hw : (1:ℝ) ≤ 1 + S.spreadWiden * |n| := by nlinarith [abs_nonneg n]
    have hhalf : (1e-6:ℝ) ≤ b * (1 + S.spreadWiden * |n|) := by nlinarith
    have hskew : S.invSkew * n ≤ 1 := by
      calc S.invSkew * n ≤ |S.invSkew * n| := le_abs_self _
        _ = S.invSkew * |n| := by rw [abs_mul, abs_of_nonneg h1]
        _ ≤ 1 * 1 := mul_le_mul h2 hnb (abs_nonneg n) (by linarith)
        _ = 1 := one_mul 1
    apply max_lt
    · nlinarith [mul_nonneg
        (by linarith : (0:ℝ) ≤ b * (1 + S.spreadWiden * |n|))
        (by linarith : (0:ℝ) ≤ 1 - S.invSkew * n)]
    · linarith

/-- Witness for amended C6 at the spec's own scenario: predefined spread
10, zero inventory, estimate 100 (bid 95 < ask 105). -/
theorem claim6_default_quote_amended_witness :
    0 < (defaultQuote S6 engineFresh.state 100).bid ∧
    (defaultQuote S6 engineFresh.state 100).bid <
      (defaultQuote S6 engineFresh.state 100).ask :=
  ⟨(claim6_default_quote_amended S6 engineFresh.state 100).1,
   (claim6_default_quote_amended S6 engineFresh.state 100).2
     (by norm_num [S6]) (by norm_num [S6]) (by norm_num [S6]) (by norm_num)⟩

/-- C6 counterexample: under settings `S1` (invSkew = 100 ≥ 0,
spreadWiden = 0, inventory limit 1), the state `E1` — reachable from the
fresh engine by one `submitQuote` call under a possible Math.random draw
stream (constantly 1/2, all values in [0, 1)) — has inventory 1, and
`defaultQuote` at the positive estimate 100 returns ask < bid (ask is
−395 while bid is floored at 1e-6), refuting bid < ask as claimed. -/
theorem claim6_default_quote_counterexample :
    (∀ n, 0 ≤ ds0 n ∧ ds0 n < 1) ∧
    runCalls ds0 S1 engineFresh [callA] = Except.ok E1 ∧
    ((0:ℝ) < 100 ∧ 0 ≤ S1.invSkew ∧ 0 ≤ S1.spreadWiden) ∧
    (defaultQuote S1 E1.state 100).ask < (defaultQuote S1 E1.state 100).bid := by
  refine ⟨fun n => ⟨by norm_num [ds0], by norm_num [ds0]⟩, run1_eq,
    ⟨by norm_num, by norm_num [S1], by norm_num [S1]⟩, ?_⟩
  have hsp : (SpreadType.predefined = SpreadType.percent) = False := by simp
  norm_num [defaultQuote, E1, S1, clamp, max_def, min_def, hsp]

/-- C5 (amended): with a fixed seed, the run of a call sequence is a
deterministic function of the settings and the calls including their
observed wall-clock times: two runs of the identical seeded engine on the
identical calls (same quotes, scenarios, quantities and timestamps)
produce equal final engines and, in particular, byte-identical fill
sequences.  Without fixing the timestamps the fills can differ in their
`ts` fields (see the counterexample). -/
theorem claim5_determinism_amended (seed : ℕ) (S : Settings) (calls : List Call)
    (Ex Ey : Engine)
    (hx : runCalls (m32stream seed) S engineFresh calls = Except.ok Ex)
    (hy : runCalls (m32stream seed) S engineFresh calls = Except.ok Ey) :
    Ex = Ey ∧ Ex.state.fills = Ey.state.fills := by
  have h := Except.ok.inj (hx.symm.trans hy)
  exact ⟨h, by rw [h]⟩

/-- Witness for amended C5 at the concrete seed-1 run. -/
theorem claim5_determinism_amended_witness :
    EA = EA ∧ EA.state.fills = EA.state.fills :=
  claim5_determinism_amended 1 S5 [callA] EA EA runA_eq runA_eq

/-- C5 counterexample: two engines with the identical settings `S5`
(seed 1) fed the identical quote/scenario/quantity sequence, but at
wall-clock times 0 and 1 respectively, produce fills that differ in
their `Date.now()` timestamp field, so the fill sequences and final
states are not byte-identical as the claim states. -/
theorem claim5_determinism_counterexample :
    runCalls (m32stream 1) S5 engineFresh [callA] = Except.ok EA ∧
    runCalls (m32stream 1) S5 engineFresh [callB] = Except.ok EB ∧
    callA.q = callB.q ∧ callA.sc = callB.sc ∧ callA.qty = callB.qty ∧
    EA.state.fills ≠ EB.state.fills ∧ EA ≠ EB := by
  refine ⟨runA_eq, runB_eq, rfl, rfl, rfl, ?_, ?_⟩
  · intro h
    simp only [EA, EB, fillA, fillB] at h
    simp at h
  · intro h
    simp only [EA, EB, fillA, fillB] at h
    simp at h

end TradingGame
